import Mathlib

/-!
Verification of the A3M-manipulation core of the repository
(`run_alphafold_with_a3m.py`, `prepare_variant_af3_configs.py`,
`run_alphafold_with_a3m_batch.py`).

Python strings are modelled as `List Char`; Python's `None`-able values as
`Option`; raised exceptions as `Except`.  Character predicates (`isupper`,
whitespace) are modelled over the ASCII range, which is the range the scripts
actually operate on (amino-acid letters, FASTA punctuation).  File access and
the external template-search collaborator are oracle parameters.
-/

/-! ## Python string primitives used by the scripts -/

/-- One step of Python's `s.split(chr(10))`: returns the first line and the
remaining lines of the tail. -/
def splitNlAux : List Char → List Char × List (List Char)
  | [] => ([], [])
  | c :: rest =>
    let r := splitNlAux rest
    if c = '\n' then ([], r.1 :: r.2) else (c :: r.1, r.2)

/-- Python's `s.split(chr(10))`: always returns at least one (possibly empty)
line. -/
def splitNl (l : List Char) : List (List Char) :=
  (splitNlAux l).1 :: (splitNlAux l).2

/-- Python's `s.strip()`: drop leading and trailing whitespace. -/
def stripChars (l : List Char) : List Char :=
  ((l.dropWhile Char.isWhitespace).reverse.dropWhile Char.isWhitespace).reverse

/-- Helper for Python's no-argument `s.split()`: `(current word, later words)`
built from the right. -/
def splitWsAux : List Char → List Char × List (List Char)
  | [] => ([], [])
  | c :: rest =>
    let r := splitWsAux rest
    if c.isWhitespace then
      if r.1.isEmpty then ([], r.2) else ([], r.1 :: r.2)
    else (c :: r.1, r.2)

/-- Python's no-argument `s.split()`: maximal runs of non-whitespace. -/
def pySplitWs (l : List Char) : List (List Char) :=
  if (splitWsAux l).1.isEmpty then (splitWsAux l).2
  else (splitWsAux l).1 :: (splitWsAux l).2

/-- Python's `(chr(10)).join(lines)`. -/
def joinNl : List (List Char) → List Char
  | [] => []
  | [l] => l
  | l :: l' :: ls => l ++ '\n' :: joinNl (l' :: ls)

/-! ## `clean_a3m_content` (run_alphafold_with_a3m.py, lines 160-271) -/

/-- `valid_upper = set('ACDEFGHIKLMNPQRSTVWY-')`. -/
def validUpper : List Char := "ACDEFGHIKLMNPQRSTVWY-".data

/-- `valid_lower = set('acdefghiklmnpqrstvwy')`. -/
def validLower : List Char := "acdefghiklmnpqrstvwy".data

/-- `valid_aa = valid_upper | valid_lower`. -/
def validAA : List Char := validUpper ++ validLower

/-- `count_aligned_positions`: number of characters that are uppercase or a
gap (`-`). -/
def count_aligned_positions (seq : List Char) : Nat :=
  seq.countP (fun c => c.isUpper || c == '-')

/-- The character-repair loop of `process_sequence`: returns the cleaned
character list and the number of invalid hits.  A valid character is kept, an
invalid uppercase character (or a `-`, a dead case since `-` is valid) is
replaced by a gap and counted, and any other invalid character is dropped and
counted. -/
def repairChars : List Char → List Char × Nat
  | [] => ([], 0)
  | c :: rest =>
    let r := repairChars rest
    if c ∈ validAA then (c :: r.1, r.2)
    else if c.isUpper || c == '-' then ('-' :: r.1, r.2 + 1)
    else (r.1, r.2 + 1)

/-- `process_sequence`: clean the header down to its first whitespace-separated
token, repair the concatenated sequence lines, and reject the record when more
than 10% of its characters were invalid (`invalid_count / len > 0.1`, i.e.
`len < 10 * invalid_count` in exact arithmetic). -/
def process_sequence (header : List Char) (seq_parts : List (List Char)) :
    Option (List Char × List Char) :=
  if header.isEmpty || seq_parts.isEmpty then none
  else
    let clean_header := (pySplitWs header).headD []
    let full_seq := seq_parts.flatten
    let r := repairChars full_seq
    if 0 < full_seq.length ∧ full_seq.length < 10 * r.2 then none
    else some (clean_header, r.1)

/-- The first-pass collection loop of `clean_a3m_content`: walk the lines,
starting a new record at each line beginning with a greater-than sign and
accumulating other lines as sequence parts of the current record. -/
def gatherRecords : List (List Char) → Option (List Char) → List (List Char) →
    List (List Char × List Char)
  | [], none, _ => []
  | [], some h, parts => (process_sequence h parts).toList
  | line :: rest, none, parts =>
    if line.head? = some '>' then gatherRecords rest (some line) []
    else gatherRecords rest none (parts ++ [line])
  | line :: rest, some h, parts =>
    if line.head? = some '>' then
      (process_sequence h parts).toList ++ gatherRecords rest (some line) []
    else gatherRecords rest (some h) (parts ++ [line])

/-- The record list produced by the first pass of `clean_a3m_content`
(`a3m_content.strip().split(chr(10))` fed to the collection loop). -/
def parse_a3m (content : List Char) : List (List Char × List Char) :=
  gatherRecords (splitNl (stripChars content)) none []

/-- The second-pass loop of `clean_a3m_content`: keep exactly the records whose
aligned-position count equals the query's. -/
def keepMatching (qlen : Nat) : List (List Char × List Char) →
    List (List Char × List Char)
  | [] => []
  | (h, s) :: rest =>
    if count_aligned_positions s = qlen then (h, s) :: keepMatching qlen rest
    else keepMatching qlen rest

/-- The records surviving both passes of `clean_a3m_content`, query first. -/
def cleanRecords (content : List Char) : List (List Char × List Char) :=
  match parse_a3m content with
  | [] => []
  | (qh, qs) :: rest => (qh, qs) :: keepMatching (count_aligned_positions qs) rest

/-- `cleaned_lines`: each record contributes its header line and its sequence
line. -/
def recordLines (rs : List (List Char × List Char)) : List (List Char) :=
  (rs.map (fun r => [r.1, r.2])).flatten

/-- `clean_a3m_content`: parse, repair and filter an A3M text.  Returns the
empty string when no record survives the first pass, otherwise the kept
records rendered as newline-joined header/sequence lines. -/
def clean_a3m_content (content : List Char) : List Char :=
  match parse_a3m content with
  | [] => []
  | (qh, qs) :: rest =>
    joinNl (recordLines ((qh, qs) :: keepMatching (count_aligned_positions qs) rest))

/-! ## Basic lemmas about the cleaner -/

theorem keepMatching_eq_filter (qlen : Nat) (l : List (List Char × List Char)) :
    keepMatching qlen l
      = l.filter (fun r => count_aligned_positions r.2 == qlen) := by
  induction l with
  | nil => rfl
  | cons r rest ih =>
    obtain ⟨h, s⟩ := r
    simp only [keepMatching, List.filter_cons, ih]
    by_cases hc : count_aligned_positions s = qlen
    · simp [hc]
    · simp [hc]

theorem keepMatching_mem_count {qlen : Nat} {l : List (List Char × List Char)}
    {r : List Char × List Char} (hr : r ∈ keepMatching qlen l) :
    count_aligned_positions r.2 = qlen := by
  rw [keepMatching_eq_filter] at hr
  simpa using (List.of_mem_filter hr)

theorem keepMatching_subset {qlen : Nat} {l : List (List Char × List Char)}
    {r : List Char × List Char} (hr : r ∈ keepMatching qlen l) : r ∈ l := by
  rw [keepMatching_eq_filter] at hr
  exact List.mem_of_mem_filter hr

theorem keepMatching_of_all {qlen : Nat} {l : List (List Char × List Char)}
    (h : ∀ r ∈ l, count_aligned_positions r.2 = qlen) :
    keepMatching qlen l = l := by
  induction l with
  | nil => rfl
  | cons r rest ih =>
    obtain ⟨hh, ss⟩ := r
    have h1 : count_aligned_positions ss = qlen := h (hh, ss) (List.mem_cons_self _ _)
    simp only [keepMatching, if_pos h1]
    exact congrArg _ (ih (fun r hr => h r (List.mem_cons_of_mem _ hr)))

theorem clean_a3m_content_eq (content : List Char) :
    clean_a3m_content content = joinNl (recordLines (cleanRecords content)) := by
  unfold clean_a3m_content cleanRecords
  cases parse_a3m content with
  | nil => rfl
  | cons q rest => rfl

/-- C1: in the alignment returned by `clean_a3m_content`, the record list is
the query followed by exactly those subsequent first-pass records whose
aligned-column count equals the query's (strict equality, original order), so
every surviving record's aligned-column count equals the query's. -/
theorem clean_alignment_filter_c1 (content : List Char) :
    (cleanRecords content = match parse_a3m content with
      | [] => []
      | q :: rest =>
        q :: rest.filter
          (fun r => count_aligned_positions r.2 == count_aligned_positions q.2))
    ∧ (∀ r ∈ cleanRecords content, ∀ q ∈ (cleanRecords content).head?,
        count_aligned_positions r.2 = count_aligned_positions q.2)
    ∧ clean_a3m_content content = joinNl (recordLines (cleanRecords content)) := by
  refine ⟨?_, ?_, clean_a3m_content_eq content⟩
  · unfold cleanRecords
    cases parse_a3m content with
    | nil => rfl
    | cons q rest =>
      obtain ⟨qh, qs⟩ := q
      simpa using keepMatching_eq_filter (count_aligned_positions qs) rest
  · intro r hr q hq
    unfold cleanRecords at hr hq
    cases hp : parse_a3m content with
    | nil => rw [hp] at hr; simp at hr
    | cons q0 rest =>
      rw [hp] at hr hq
      obtain ⟨qh, qs⟩ := q0
      simp only [List.head?_cons, Option.mem_def, Option.some.injEq] at hq
      rcases List.mem_cons.mp hr with h1 | h2
      · rw [h1, ← hq]
      · rw [← hq]
        exact keepMatching_mem_count h2

theorem clean_alignment_filter_c1_witness :
    count_aligned_positions "MK--".data = count_aligned_positions "MKLL".data :=
  (clean_alignment_filter_c1 ">q\nMKLL\n>h1\nMK--\n".data).2.1
    (">h1".data, "MK--".data) (by decide)
    (">q".data, "MKLL".data) (Option.mem_def.mpr (by decide))


/-! ## C3: character-repair policy -/

/-- C3 counterexample: an invalid punctuation character (here a full stop) in
an uppercase/aligned context is dropped silently, not replaced with a gap.
The record `>q` / `AAAAAAAAA.` has one invalid hit out of ten characters
(ratio exactly 0.10, not above the bound), and its cleaned sequence is
`AAAAAAAAA`, not the `AAAAAAAAA-` the claim predicts. -/
theorem process_sequence_punct_cex :
    process_sequence ">q".data ["AAAAAAAAA.".data]
      = some (">q".data, "AAAAAAAAA".data)
    ∧ "AAAAAAAAA".data ≠ "AAAAAAAAA-".data := by
  constructor
  · rfl
  · decide

/-- C3 (amended): a valid amino-acid character or gap is kept; an invalid
uppercase letter is replaced with a gap and counted as one invalid hit; every
other invalid character (lowercase, punctuation, digits, ...) is dropped
silently and counted as one invalid hit; and a record with a nonempty header
and at least one sequence line is dropped if and only if
`invalid_hits / original_length > 0.10` (in exact arithmetic,
`original_length < 10 * invalid_hits`). -/
theorem repair_policy_amended :
    (∀ c rest, c ∈ validAA →
      repairChars (c :: rest) = (c :: (repairChars rest).1, (repairChars rest).2))
    ∧ (∀ c rest, c ∉ validAA → c.isUpper = true →
      repairChars (c :: rest) = ('-' :: (repairChars rest).1, (repairChars rest).2 + 1))
    ∧ (∀ c rest, c ∉ validAA → c.isUpper = false →
      repairChars (c :: rest) = ((repairChars rest).1, (repairChars rest).2 + 1))
    ∧ (∀ header seq_parts, header ≠ [] → seq_parts ≠ ([] : List (List Char)) →
      (process_sequence header seq_parts = none ↔
        0 < seq_parts.flatten.length
          ∧ seq_parts.flatten.length < 10 * (repairChars seq_parts.flatten).2)) := by
  refine ⟨?_, ?_, ?_, ?_⟩
  · intro c rest hc
    simp [repairChars, hc]
  · intro c rest hc hup
    simp [repairChars, hc, hup]
  · intro c rest hc hup
    have hne : c ≠ '-' := fun he => hc (he ▸ (by decide : ('-' : Char) ∈ validAA))
    have hdash : (c == '-') = false := beq_eq_false_iff_ne.mpr hne
    simp [repairChars, hc, hup, hdash]
  · intro header seq_parts hh hp
    have hh' : header.isEmpty = false := by simpa using hh
    have hp' : seq_parts.isEmpty = false := by simpa using hp
    unfold process_sequence
    rw [hh', hp']
    simp only [Bool.or_self, Bool.false_eq_true, if_false]
    by_cases hg : 0 < seq_parts.flatten.length
        ∧ seq_parts.flatten.length < 10 * (repairChars seq_parts.flatten).2
    · simp [hg]
    · simp [hg]

theorem repair_policy_amended_witness :
    repairChars ('A' :: []) = ('A' :: (repairChars []).1, (repairChars []).2)
    ∧ repairChars ('B' :: []) = ('-' :: (repairChars []).1, (repairChars []).2 + 1)
    ∧ repairChars ('.' :: []) = ((repairChars []).1, (repairChars []).2 + 1)
    ∧ (process_sequence ">q".data ["ab".data] = none ↔
        0 < (["ab".data] : List (List Char)).flatten.length
          ∧ (["ab".data] : List (List Char)).flatten.length
              < 10 * (repairChars (["ab".data] : List (List Char)).flatten).2) :=
  ⟨repair_policy_amended.1 'A' [] (by decide),
   repair_policy_amended.2.1 'B' [] (by decide) (by decide),
   repair_policy_amended.2.2.1 '.' [] (by decide) (by decide),
   repair_policy_amended.2.2.2 ">q".data ["ab".data] (by decide) (by decide)⟩

/-! ## Well-formedness of cleaned records (towards C2) -/

/-- Headers produced by `process_sequence` are nonempty, begin with a
greater-than sign, and contain no whitespace. -/
def HeaderOK (h : List Char) : Prop :=
  h ≠ [] ∧ h.head? = some '>' ∧ ∀ c ∈ h, c.isWhitespace = false

/-- Sequences produced by `process_sequence` consist of valid characters. -/
def SeqOK (s : List Char) : Prop := ∀ c ∈ s, c ∈ validAA

def RecOK (r : List Char × List Char) : Prop := HeaderOK r.1 ∧ SeqOK r.2

theorem validAA_no_ws : ∀ c ∈ validAA, c.isWhitespace = false := by decide

theorem validAA_ne_gt : ∀ c ∈ validAA, c ≠ '>' := by decide

theorem validAA_no_nl : ∀ c ∈ validAA, c ≠ '\n' := by decide

theorem repairChars_valid {s : List Char} (h : ∀ c ∈ s, c ∈ validAA) :
    repairChars s = (s, 0) := by
  induction s with
  | nil => rfl
  | cons c rest ih =>
    have hc : c ∈ validAA := h c (List.mem_cons_self _ _)
    have := ih (fun x hx => h x (List.mem_cons_of_mem _ hx))
    simp [repairChars, hc, this]

theorem repairChars_mem {s : List Char} : ∀ c ∈ (repairChars s).1, c ∈ validAA := by
  induction s with
  | nil => intro c hc; simp [repairChars] at hc
  | cons a rest ih =>
    intro c hc
    by_cases ha : a ∈ validAA
    · simp only [repairChars, if_pos ha] at hc
      rcases List.mem_cons.mp hc with h1 | h2
      · rw [h1]; exact ha
      · exact ih c h2
    · by_cases hu : (a.isUpper || a == '-') = true
      · simp only [repairChars, if_neg ha, if_pos hu] at hc
        rcases List.mem_cons.mp hc with h1 | h2
        · rw [h1]; decide
        · exact ih c h2
      · simp only [repairChars, if_neg ha, if_neg hu] at hc
        exact ih c hc

theorem splitWsAux_fst_no_ws {l : List Char} :
    ∀ c ∈ (splitWsAux l).1, c.isWhitespace = false := by
  induction l with
  | nil => intro c hc; simp [splitWsAux] at hc
  | cons a rest ih =>
    intro c hc
    by_cases hw : a.isWhitespace = true
    · simp only [splitWsAux, hw, if_true] at hc
      by_cases he : (splitWsAux rest).1.isEmpty = true
      · simp [he] at hc
      · simp [he] at hc
    · simp only [splitWsAux, hw, if_false, Bool.false_eq_true] at hc
      rcases List.mem_cons.mp hc with h1 | h2
      · rw [h1]; simpa using hw
      · exact ih c h2

theorem splitWsAux_of_no_ws {l : List Char} (h : ∀ c ∈ l, c.isWhitespace = false) :
    splitWsAux l = (l, []) := by
  induction l with
  | nil => rfl
  | cons a rest ih =>
    have ha : a.isWhitespace = false := h a (List.mem_cons_self _ _)
    have := ih (fun x hx => h x (List.mem_cons_of_mem _ hx))
    simp [splitWsAux, ha, this]

theorem pySplitWs_of_no_ws {l : List Char} (hne : l ≠ [])
    (h : ∀ c ∈ l, c.isWhitespace = false) : pySplitWs l = [l] := by
  have he : l.isEmpty = false := by simpa using hne
  simp [pySplitWs, splitWsAux_of_no_ws h, he]

theorem process_sequence_roundtrip {h s : List Char} (hh : HeaderOK h) (hs : SeqOK s) :
    process_sequence h [s] = some (h, s) := by
  obtain ⟨hne, _, hnws⟩ := hh
  have he : h.isEmpty = false := by simpa using hne
  unfold process_sequence
  rw [he]
  simp only [List.isEmpty_cons, Bool.or_false]
  have hflat : ([s] : List (List Char)).flatten = s := by simp
  rw [hflat, repairChars_valid hs, pySplitWs_of_no_ws hne hnws]
  simp

theorem pySplitWs_head_gt {t : List Char} :
    ∃ f, (pySplitWs ('>' :: t)).headD [] = '>' :: f
      ∧ ∀ c ∈ ('>' :: f), c.isWhitespace = false := by
  have hgt : ('>' : Char).isWhitespace = false := by decide
  have haux : splitWsAux ('>' :: t)
      = ('>' :: (splitWsAux t).1, (splitWsAux t).2) := by
    simp [splitWsAux, hgt]
  refine ⟨(splitWsAux t).1, ?_, ?_⟩
  · simp [pySplitWs, haux]
  · intro c hc
    rcases List.mem_cons.mp hc with h1 | h2
    · rw [h1]; exact hgt
    · exact splitWsAux_fst_no_ws c h2

theorem process_sequence_out_ok {h : List Char} {parts : List (List Char)}
    {r : List Char × List Char} (hh : h.head? = some '>')
    (hp : process_sequence h parts = some r) : RecOK r := by
  cases h with
  | nil => simp at hh
  | cons c t =>
    have hc : c = '>' := by simpa using hh
    subst hc
    unfold process_sequence at hp
    by_cases hpe : parts.isEmpty = true
    · simp [hpe] at hp
    · simp only [List.isEmpty_cons, hpe, Bool.or_false, Bool.false_eq_true,
        if_false] at hp
      by_cases hg : 0 < parts.flatten.length
          ∧ parts.flatten.length < 10 * (repairChars parts.flatten).2
      · rw [if_pos hg] at hp
        cases hp
      · rw [if_neg hg] at hp
        obtain ⟨f, hf, hfw⟩ := pySplitWs_head_gt (t := t)
        have hr : r
            = ((pySplitWs ('>' :: t)).headD [], (repairChars parts.flatten).1) :=
          (Option.some.inj hp).symm
        rw [hf] at hr
        rw [hr]
        refine ⟨⟨by simp, by simp, hfw⟩, ?_⟩
        intro c hc
        exact repairChars_mem c hc

theorem gatherRecords_all_ok :
    ∀ (lines : List (List Char)) (cur : Option (List Char)) (parts : List (List Char)),
      (∀ h0, cur = some h0 → h0.head? = some '>') →
      ∀ r ∈ gatherRecords lines cur parts, RecOK r := by
  intro lines
  induction lines with
  | nil =>
    intro cur parts hcur r hr
    cases cur with
    | none => simp [gatherRecords] at hr
    | some h =>
      simp only [gatherRecords, Option.mem_toList] at hr
      exact process_sequence_out_ok (hcur h rfl) hr
  | cons line rest ih =>
    intro cur parts hcur r hr
    cases cur with
    | none =>
      by_cases hl : line.head? = some '>'
      · rw [gatherRecords, if_pos hl] at hr
        exact ih (some line) [] (fun h0 he => by rw [← Option.some.inj he]; exact hl) r hr
      · rw [gatherRecords, if_neg hl] at hr
        exact ih none (parts ++ [line]) (fun h0 he => by cases he) r hr
    | some h =>
      by_cases hl : line.head? = some '>'
      · rw [gatherRecords, if_pos hl] at hr
        rcases List.mem_append.mp hr with h1 | h2
        · exact process_sequence_out_ok (hcur h rfl) (Option.mem_toList.mp h1)
        · exact ih (some line) [] (fun h0 he => by rw [← Option.some.inj he]; exact hl) r h2
      · rw [gatherRecords, if_neg hl] at hr
        exact ih (some h) (parts ++ [line]) hcur r hr

theorem parse_a3m_all_ok (content : List Char) :
    ∀ r ∈ parse_a3m content, RecOK r :=
  gatherRecords_all_ok _ none [] (fun _ he => by cases he)

theorem cleanRecords_all_ok (content : List Char) :
    ∀ r ∈ cleanRecords content, RecOK r := by
  intro r hr
  unfold cleanRecords at hr
  cases hp : parse_a3m content with
  | nil => rw [hp] at hr; simp at hr
  | cons q rest =>
    rw [hp] at hr
    obtain ⟨qh, qs⟩ := q
    rcases List.mem_cons.mp hr with h1 | h2
    · exact parse_a3m_all_ok content r (by rw [hp, h1]; exact List.mem_cons_self _ _)
    · exact parse_a3m_all_ok content r
        (by rw [hp]; exact List.mem_cons_of_mem _ (keepMatching_subset h2))

/-! ## Round-trip lemmas: rendering then re-parsing cleaned records -/

theorem splitNlAux_no_nl {l : List Char} (h : '\n' ∉ l) : splitNlAux l = (l, []) := by
  induction l with
  | nil => rfl
  | cons c rest ih =>
    have hc : ¬c = '\n' := fun he => h (he ▸ List.mem_cons_self _ _)
    have := ih (fun hm => h (List.mem_cons_of_mem _ hm))
    simp [splitNlAux, hc, this]

theorem splitNl_no_nl {l : List Char} (h : '\n' ∉ l) : splitNl l = [l] := by
  simp [splitNl, splitNlAux_no_nl h]

theorem splitNlAux_append_nl {l : List Char} (t : List Char) (h : '\n' ∉ l) :
    splitNlAux (l ++ '\n' :: t) = (l, splitNl t) := by
  induction l with
  | nil => simp [splitNlAux, splitNl]
  | cons c rest ih =>
    have hc : ¬c = '\n' := fun he => h (he ▸ List.mem_cons_self _ _)
    have := ih (fun hm => h (List.mem_cons_of_mem _ hm))
    simp [splitNlAux, hc, this]

theorem splitNl_append_nl {l : List Char} (t : List Char) (h : '\n' ∉ l) :
    splitNl (l ++ '\n' :: t) = l :: splitNl t := by
  simp [splitNl, splitNlAux_append_nl t h]

theorem joinNl_cons_of_ne_nil (a : List Char) {M : List (List Char)} (h : M ≠ []) :
    joinNl (a :: M) = a ++ '\n' :: joinNl M := by
  cases M with
  | nil => exact absurd rfl h
  | cons b bs => rfl

theorem splitNl_joinNl {lines : List (List Char)} (hne : lines ≠ [])
    (h : ∀ m ∈ lines, '\n' ∉ m) : splitNl (joinNl lines) = lines := by
  induction lines with
  | nil => exact absurd rfl hne
  | cons l ls ih =>
    cases ls with
    | nil => exact splitNl_no_nl (h l (List.mem_cons_self _ _))
    | cons l2 ls2 =>
      rw [joinNl_cons_of_ne_nil l (by simp)]
      rw [splitNl_append_nl _ (h l (List.mem_cons_self _ _))]
      rw [ih (by simp) (fun m hm => h m (List.mem_cons_of_mem _ hm))]

theorem recordLines_cons (h s : List Char) (rs : List (List Char × List Char)) :
    recordLines ((h, s) :: rs) = h :: s :: recordLines rs := rfl

theorem recordLines_mem {rs : List (List Char × List Char)} {m : List Char}
    (hm : m ∈ recordLines rs) : ∃ r ∈ rs, m = r.1 ∨ m = r.2 := by
  induction rs with
  | nil => simp [recordLines] at hm
  | cons r rest ih =>
    obtain ⟨h, s⟩ := r
    rw [recordLines_cons] at hm
    rcases List.mem_cons.mp hm with h1 | hm2
    · exact ⟨(h, s), List.mem_cons_self _ _, Or.inl h1⟩
    · rcases List.mem_cons.mp hm2 with h2 | hm3
      · exact ⟨(h, s), List.mem_cons_self _ _, Or.inr h2⟩
      · obtain ⟨r', hr', he⟩ := ih hm3
        exact ⟨r', List.mem_cons_of_mem _ hr', he⟩

theorem recordLines_no_nl {rs : List (List Char × List Char)}
    (hok : ∀ r ∈ rs, RecOK r) : ∀ m ∈ recordLines rs, '\n' ∉ m := by
  intro m hm hnl
  obtain ⟨r, hr, he⟩ := recordLines_mem hm
  obtain ⟨⟨_, _, hws⟩, hseq⟩ := hok r hr
  rcases he with h1 | h2
  · rw [h1] at hnl
    exact absurd (hws '\n' hnl) (by decide)
  · rw [h2] at hnl
    exact absurd (validAA_no_nl '\n' (hseq '\n' hnl)) (by simp)

theorem gatherRecords_cont (rs : List (List Char × List Char)) :
    ∀ (h s : List Char), HeaderOK h → SeqOK s → (∀ r ∈ rs, RecOK r) →
      gatherRecords (recordLines rs) (some h) [s] = (h, s) :: rs := by
  induction rs with
  | nil =>
    intro h s hh hs _
    show (process_sequence h [s]).toList = [(h, s)]
    rw [process_sequence_roundtrip hh hs]
    rfl
  | cons r2 rest ih =>
    intro h s hh hs hok
    obtain ⟨h2, s2⟩ := r2
    obtain ⟨hh2, hs2⟩ := hok (h2, s2) (List.mem_cons_self _ _)
    have hok' : ∀ r ∈ rest, RecOK r := fun r hr => hok r (List.mem_cons_of_mem _ hr)
    rw [recordLines_cons]
    rw [gatherRecords, if_pos hh2.2.1]
    rw [process_sequence_roundtrip hh hs]
    have hs2nh : ¬s2.head? = some '>' := by
      cases s2 with
      | nil => simp
      | cons c t =>
        simp only [List.head?_cons, Option.some.injEq]
        exact validAA_ne_gt c (hs2 c (List.mem_cons_self _ _))
    rw [gatherRecords, if_neg hs2nh]
    rw [List.nil_append]
    rw [ih h2 s2 hh2 hs2 hok']
    rfl

theorem gatherRecords_render {rs : List (List Char × List Char)} (hne : rs ≠ [])
    (hok : ∀ r ∈ rs, RecOK r) :
    gatherRecords (recordLines rs) none [] = rs := by
  cases rs with
  | nil => exact absurd rfl hne
  | cons r rest =>
    obtain ⟨h, s⟩ := r
    obtain ⟨hh, hs⟩ := hok (h, s) (List.mem_cons_self _ _)
    have hok' : ∀ r ∈ rest, RecOK r := fun r hr => hok r (List.mem_cons_of_mem _ hr)
    rw [recordLines_cons]
    rw [gatherRecords, if_pos hh.2.1]
    have hsnh : ¬s.head? = some '>' := by
      cases s with
      | nil => simp
      | cons c t =>
        simp only [List.head?_cons, Option.some.injEq]
        exact validAA_ne_gt c (hs c (List.mem_cons_self _ _))
    rw [gatherRecords, if_neg hsnh]
    rw [List.nil_append]
    exact gatherRecords_cont rest h s hh hs hok'

theorem stripChars_eq_self {l : List Char}
    (hh : ∀ c ∈ l.head?, c.isWhitespace = false)
    (hl : ∀ c ∈ l.reverse.head?, c.isWhitespace = false) : stripChars l = l := by
  unfold stripChars
  have h1 : l.dropWhile Char.isWhitespace = l := by
    cases l with
    | nil => rfl
    | cons c t =>
      have := hh c (by simp)
      simp [List.dropWhile_cons, this]
  rw [h1]
  have h2 : l.reverse.dropWhile Char.isWhitespace = l.reverse := by
    cases hr : l.reverse with
    | nil => rfl
    | cons c t =>
      have := hl c (by simp [hr])
      simp [List.dropWhile_cons, this]
  rw [h2, List.reverse_reverse]

theorem head_append_of_ne_nil {α : Type} (l l' : List α) (h : l ≠ []) :
    (l ++ l').head? = l.head? := by
  cases l with
  | nil => exact absurd rfl h
  | cons a t => rfl

theorem joinNl_head {l : List Char} (ls : List (List Char)) (h : l ≠ []) :
    (joinNl (l :: ls)).head? = l.head? := by
  cases ls with
  | nil => rfl
  | cons l2 ls2 =>
    rw [joinNl_cons_of_ne_nil l (by simp)]
    exact head_append_of_ne_nil l _ h

theorem joinNl_concat_ne_nil (ls : List (List Char)) {l : List Char} (h : l ≠ []) :
    joinNl (ls ++ [l]) ≠ [] := by
  cases ls with
  | nil => simpa [joinNl] using h
  | cons a as =>
    rw [List.cons_append, joinNl_cons_of_ne_nil a (by simp)]
    cases a with
    | nil => simp
    | cons c t => simp

theorem joinNl_concat_last (ls : List (List Char)) {l : List Char} (h : l ≠ []) :
    (joinNl (ls ++ [l])).reverse.head? = l.reverse.head? := by
  induction ls with
  | nil => simp [joinNl]
  | cons a as ih =>
    rw [List.cons_append, joinNl_cons_of_ne_nil a (by simp)]
    have hne : joinNl (as ++ [l]) ≠ [] := joinNl_concat_ne_nil as h
    rw [List.reverse_append, List.reverse_cons]
    rw [List.append_assoc]
    rw [head_append_of_ne_nil _ _ (by simpa using hne)]
    exact ih

theorem parse_a3m_render {rs : List (List Char × List Char)} (hne : rs ≠ [])
    (hok : ∀ r ∈ rs, RecOK r)
    (hlast : ∀ r, rs.getLast? = some r → r.2 ≠ []) :
    parse_a3m (joinNl (recordLines rs)) = rs := by
  obtain ⟨rs', rl, hconc⟩ : ∃ rs' rl, rs = rs' ++ [rl] := by
    rcases List.eq_nil_or_concat rs with h | ⟨rs', rl, h⟩
    · exact absurd h hne
    · exact ⟨rs', rl, by rw [h, List.concat_eq_append]⟩
  have hrl_mem : rl ∈ rs := by rw [hconc]; simp
  have hrl_last : rs.getLast? = some rl := by rw [hconc]; simp
  have hrl2 : rl.2 ≠ [] := hlast rl hrl_last
  obtain ⟨q, rest, hqr⟩ : ∃ q rest, rs = q :: rest := by
    cases rs with
    | nil => exact absurd rfl hne
    | cons q rest => exact ⟨q, rest, rfl⟩
  have hqok := hok q (by rw [hqr]; exact List.mem_cons_self _ _)
  -- the rendered text starts with the first header and ends with the last
  -- sequence, both free of surrounding whitespace
  have hlines : recordLines rs = q.1 :: q.2 :: recordLines rest := by
    rw [hqr]
    obtain ⟨qh, qs⟩ := q
    exact recordLines_cons qh qs rest
  have hstart : ∀ c ∈ (joinNl (recordLines rs)).head?, c.isWhitespace = false := by
    intro c hc
    rw [hlines, joinNl_head _ hqok.1.1] at hc
    cases hq1 : q.1 with
    | nil => exact absurd hq1 hqok.1.1
    | cons a t =>
      rw [hq1] at hc
      simp only [List.head?_cons, Option.mem_def, Option.some.injEq] at hc
      have ha : a = '>' := by
        have := hqok.1.2.1
        rw [hq1] at this
        simpa using this
      rw [← hc, ha]
      decide
  have hlines2 : recordLines rs = (recordLines rs' ++ [rl.1]) ++ [rl.2] := by
    rw [hconc]
    have : recordLines (rs' ++ [rl]) = recordLines rs' ++ [rl.1, rl.2] := by
      unfold recordLines
      rw [List.map_append, List.flatten_append]
      rfl
    rw [this, List.append_assoc]
    rfl
  have hend : ∀ c ∈ (joinNl (recordLines rs)).reverse.head?, c.isWhitespace = false := by
    intro c hc
    rw [hlines2, joinNl_concat_last _ hrl2] at hc
    have hok_rl := hok rl hrl_mem
    have hcmem : c ∈ rl.2 := by
      have : c ∈ rl.2.reverse.head? := hc
      cases h2 : rl.2.reverse with
      | nil =>
        rw [h2] at this
        simp at this
      | cons a t =>
        rw [h2] at this
        simp only [List.head?_cons, Option.mem_def, Option.some.injEq] at this
        rw [← List.mem_reverse, h2, this]
        exact List.mem_cons_self _ _
    exact validAA_no_ws c (hok_rl.2 c hcmem)
  have hstrip : stripChars (joinNl (recordLines rs)) = joinNl (recordLines rs) :=
    stripChars_eq_self hstart hend
  have hsplit : splitNl (joinNl (recordLines rs)) = recordLines rs :=
    splitNl_joinNl (by rw [hlines]; simp) (recordLines_no_nl hok)
  unfold parse_a3m
  rw [hstrip, hsplit]
  exact gatherRecords_render hne hok

/-! ## C2: idempotence of cleaning -/

/-- C2 counterexample: cleaning is not idempotent.  For the input
`>q` / blank line / `>h` / `MK`, the query record survives with an empty
repaired sequence and the homolog is dropped (aligned length 2 versus 0), so
the cleaned text is `>q` followed by a newline; re-cleaning strips that
trailing newline, leaving a header with no sequence line, which the first
pass then drops, yielding the empty string. -/
theorem clean_not_idempotent_cex :
    clean_a3m_content (clean_a3m_content ">q\n\n>h\nMK".data)
      ≠ clean_a3m_content ">q\n\n>h\nMK".data := by
  decide

/-- C2 (amended): cleaning is idempotent for every input whose cleaned record
list does not end in a record with an empty sequence (in particular for every
input whose cleaned records all have nonempty sequences).  The counterexample
forces exactly this proviso: a trailing empty sequence renders as a trailing
newline that the second pass's `strip()` removes. -/
theorem clean_idempotent_amended (content : List Char)
    (hlast : ∀ r, (cleanRecords content).getLast? = some r → r.2 ≠ []) :
    clean_a3m_content (clean_a3m_content content) = clean_a3m_content content := by
  cases hp : parse_a3m content with
  | nil =>
    have h1 : clean_a3m_content content = [] := by
      unfold clean_a3m_content
      rw [hp]
    rw [h1]
    decide
  | cons q rest =>
    obtain ⟨qh, qs⟩ := q
    have hrs : cleanRecords content
        = (qh, qs) :: keepMatching (count_aligned_positions qs) rest := by
      unfold cleanRecords
      rw [hp]
    have hclean : clean_a3m_content content
        = joinNl (recordLines (cleanRecords content)) := clean_a3m_content_eq content
    have hne : cleanRecords content ≠ [] := by rw [hrs]; simp
    have hok : ∀ r ∈ cleanRecords content, RecOK r := cleanRecords_all_ok content
    have hparse2 : parse_a3m (clean_a3m_content content) = cleanRecords content := by
      rw [hclean]
      exact parse_a3m_render hne hok hlast
    have hidem : keepMatching (count_aligned_positions qs)
        (keepMatching (count_aligned_positions qs) rest)
        = keepMatching (count_aligned_positions qs) rest :=
      keepMatching_of_all (fun r hr => keepMatching_mem_count hr)
    generalize hy : clean_a3m_content content = y
    rw [hy] at hclean hparse2
    have hstep : clean_a3m_content y
        = joinNl (recordLines ((qh, qs) :: keepMatching (count_aligned_positions qs)
            (keepMatching (count_aligned_positions qs) rest))) := by
      unfold clean_a3m_content
      rw [hparse2, hrs]
    rw [hstep, hidem, ← hrs, ← hclean]

theorem clean_idempotent_amended_witness :
    clean_a3m_content (clean_a3m_content ">q\nMK\n>h\nAC".data)
      = clean_a3m_content ">q\nMK\n>h\nAC".data :=
  clean_idempotent_amended ">q\nMK\n>h\nAC".data (fun r hr => by
    have h2 : (cleanRecords ">q\nMK\n>h\nAC".data).getLast?
        = some (">h".data, "AC".data) := by decide
    rw [h2] at hr
    rw [← Option.some.inj hr]
    decide)

/-! ## `create_variant_msa` (prepare_variant_af3_configs.py, lines 86-125) -/

/-- The line loop of `create_variant_msa`, carrying the `first_entry` and
`skip_sequence` flags: the first header line is replaced by the variant
header, the single line right after it by the variant sequence, and every
other line passes through. -/
def cvmLoop (variant_name variant_sequence : List Char) :
    List (List Char) → Bool → Bool → List (List Char)
  | [], _, _ => []
  | line :: rest, first_entry, skip_sequence =>
    if line.head? = some '>' then
      if first_entry then
        ('>' :: variant_name) :: cvmLoop variant_name variant_sequence rest false true
      else
        line :: cvmLoop variant_name variant_sequence rest first_entry false
    else
      if skip_sequence then
        variant_sequence :: cvmLoop variant_name variant_sequence rest first_entry false
      else
        line :: cvmLoop variant_name variant_sequence rest first_entry skip_sequence

/-- `create_variant_msa`: replace the query entry of a wild-type A3M string
with the variant name and sequence.  Note the split is `wt_msa.split(...)`
with no `strip()`. -/
def create_variant_msa (wt_msa variant_name variant_sequence : List Char) :
    List Char :=
  joinNl (cvmLoop variant_name variant_sequence (splitNl wt_msa) true false)

/-- Modelled from the spec's data model (section 3, AlignmentRecord): group
A3M lines into (header, concatenated-sequence-lines) records, used only to
observe outputs record-wise; lines before the first header are ignored. -/
def groupRecords : List (List Char) → Option (List Char) → List (List Char) →
    List (List Char × List Char)
  | [], none, _ => []
  | [], some h, parts => [(h, parts.flatten)]
  | line :: rest, none, parts =>
    if line.head? = some '>' then groupRecords rest (some line) []
    else groupRecords rest none parts
  | line :: rest, some h, parts =>
    if line.head? = some '>' then
      (h, parts.flatten) :: groupRecords rest (some line) []
    else groupRecords rest (some h) (parts ++ [line])

/-- Modelled from the spec's data model: the records of a list of A3M lines. -/
def recordsOfLines (lines : List (List Char)) : List (List Char × List Char) :=
  groupRecords lines none []

theorem cvmLoop_id (variant_name variant_sequence : List Char) :
    ∀ lines, cvmLoop variant_name variant_sequence lines false false = lines := by
  intro lines
  induction lines with
  | nil => rfl
  | cons line rest ih =>
    by_cases hl : line.head? = some '>'
    · rw [cvmLoop, if_pos hl]
      simp only [Bool.false_eq_true, if_false]
      rw [ih]
    · rw [cvmLoop, if_neg hl]
      simp only [Bool.false_eq_true, if_false]
      rw [ih]

theorem recordsOfLines_cons2 {h s : List Char} (rest : List (List Char))
    (hh : h.head? = some '>') (hs : ¬s.head? = some '>')
    (hrest : ∀ l, rest.head? = some l → l.head? = some '>') :
    recordsOfLines (h :: s :: rest) = (h, s) :: recordsOfLines rest := by
  unfold recordsOfLines
  rw [groupRecords, if_pos hh]
  rw [groupRecords, if_neg hs]
  cases rest with
  | nil =>
    show [(h, ([] ++ [s] : List (List Char)).flatten)] = [(h, s)] ++ groupRecords [] none []
    simp [groupRecords]
  | cons r0 rest' =>
    have hr0 : r0.head? = some '>' := hrest r0 (by simp)
    have hL : groupRecords (r0 :: rest') (some h) ([] ++ [s])
        = (h, ([] ++ [s] : List (List Char)).flatten)
            :: groupRecords rest' (some r0) [] := by
      rw [groupRecords, if_pos hr0]
    have hR : groupRecords (r0 :: rest') none ([] : List (List Char))
        = groupRecords rest' (some r0) [] := by
      rw [groupRecords, if_pos hr0]
    rw [hL, hR]
    simp

/-- C4 counterexample: the transplant claim fails when the wild-type query
sequence spans more than one line, even though the length precondition
(variant length equals wild-type protein-sequence length, here both 4) holds:
only the first sequence line is replaced, so record 0 of the transplanted
alignment carries the variant followed by the leftover query line. -/
theorem variant_msa_multiline_cex :
    (recordsOfLines (splitNl
        (create_variant_msa ">wt\nMK\nLL\n>h1\nMKLL".data "v1".data "MRLL".data))).head?
      = some (">v1".data, "MRLLLL".data)
    ∧ "MRLLLL".data ≠ "MRLL".data
    ∧ "MRLL".data.length = "MKLL".data.length := by
  refine ⟨?_, by decide, by decide⟩
  rfl

/-- C4 (amended): provided the wild-type MSA text begins with the query header
line followed by exactly one query sequence line (the next line, if any, is
again a header, which is the shape `clean_a3m_content` produces), the
transplanted alignment is the wild type with its first header line replaced by
the variant header and its first sequence line replaced by the variant
sequence verbatim; record 0 is exactly (variant header, variant sequence) and
the non-query records of the transplant are byte-identical to the wild type's
non-query records. -/
theorem variant_msa_transplant_amended
    (wt_msa variant_name variant_sequence : List Char)
    (h0 s0 : List Char) (rest : List (List Char))
    (hsplit : splitNl wt_msa = h0 :: s0 :: rest)
    (hh0 : h0.head? = some '>') (hs0 : ¬s0.head? = some '>')
    (hvar : ¬variant_sequence.head? = some '>')
    (hrest : ∀ l, rest.head? = some l → l.head? = some '>') :
    create_variant_msa wt_msa variant_name variant_sequence
      = joinNl (('>' :: variant_name) :: variant_sequence :: rest)
    ∧ recordsOfLines (('>' :: variant_name) :: variant_sequence :: rest)
      = ('>' :: variant_name, variant_sequence) :: recordsOfLines rest
    ∧ recordsOfLines (h0 :: s0 :: rest) = (h0, s0) :: recordsOfLines rest := by
  refine ⟨?_, recordsOfLines_cons2 rest rfl hvar hrest,
    recordsOfLines_cons2 rest hh0 hs0 hrest⟩
  unfold create_variant_msa
  rw [hsplit]
  rw [cvmLoop, if_pos hh0]
  simp only [if_true]
  rw [cvmLoop, if_neg hs0]
  simp only [if_true]
  rw [cvmLoop_id]

theorem variant_msa_transplant_amended_witness :
    create_variant_msa ">wt\nMKLL\n>h1\nMK--".data "v1".data "MRLL".data
      = joinNl (('>' :: "v1".data) :: "MRLL".data :: [">h1".data, "MK--".data])
    ∧ recordsOfLines (('>' :: "v1".data) :: "MRLL".data :: [">h1".data, "MK--".data])
      = ('>' :: "v1".data, "MRLL".data) :: recordsOfLines [">h1".data, "MK--".data]
    ∧ recordsOfLines (">wt".data :: "MKLL".data :: [">h1".data, "MK--".data])
      = (">wt".data, "MKLL".data) :: recordsOfLines [">h1".data, "MK--".data] :=
  variant_msa_transplant_amended ">wt\nMKLL\n>h1\nMK--".data "v1".data "MRLL".data
    ">wt".data "MKLL".data [">h1".data, "MK--".data]
    (by decide) (by decide) (by decide) (by decide)
    (fun l hl => by
      have h2 : ([">h1".data, "MK--".data] : List (List Char)).head?
          = some ">h1".data := rfl
      rw [h2] at hl
      rw [← Option.some.inj hl]
      decide)

/-! ## Job payload data model (the JSON dictionaries the scripts manipulate) -/

/-- One entry of the `templates` list built by `search_templates_with_msa`. -/
structure TemplateRec where
  mmcif : List Char
  queryIndices : List Nat
  templateIndices : List Nat
deriving DecidableEq

/-- A `protein` dictionary.  `Option` fields model key presence; `id` is the
chain identifier (first element when the JSON gives a list). -/
structure Protein where
  id : List Char
  sequence : List Char
  unpairedMsa : Option (List Char)
  pairedMsa : Option (List Char)
  templates : Option (List TemplateRec)
  msa_path : Option (List Char)
deriving DecidableEq

/-- One entry of the payload's `sequences` list. -/
inductive Entity where
  | protein (p : Protein)
  | ligand (id : List Char) (smiles : List Char)
  | other (tag : Nat)
deriving DecidableEq

/-- The fold-input payload: the fields the scripts read or write. -/
structure Payload where
  name : List Char
  modelSeeds : List Int
  sequences : List Entity
deriving DecidableEq

/-- Python exceptions raised by the modelled code paths. -/
inductive PyErr where
  | valueError
  | fileNotFound
deriving DecidableEq

/-! ## `create_variant_input_json` (prepare_variant_af3_configs.py, 128-214) -/

/-- The `for seq_entry in result['sequences']` loop: update the first protein
entity (new sequence; transplanted MSA when a nonempty `unpairedMsa` is
present; templates kept as-is) and stop (`break`).  Returns the
`protein_found` flag and the updated list. -/
def updateVariantProtein (variant_name variant_sequence : List Char) :
    List Entity → Bool × List Entity
  | [] => (false, [])
  | Entity.protein p :: rest =>
    (true, Entity.protein { p with
        sequence := variant_sequence,
        unpairedMsa := match p.unpairedMsa with
          | some m =>
            if m.isEmpty then some m
            else some (create_variant_msa m variant_name variant_sequence)
          | none => none } :: rest)
  | e :: rest =>
    let r := updateVariantProtein variant_name variant_sequence rest
    (r.1, e :: r.2)

def hasLigandEntity (es : List Entity) : Bool :=
  es.any (fun e => match e with
    | Entity.ligand _ _ => true
    | _ => false)

/-- `create_variant_input_json`: validate the length precondition first (a
`ValueError` is raised before anything else), then work on a deep copy of the
wild-type payload: rename it, optionally override the model seeds, update the
first protein entity, and optionally append a ligand when none is present. -/
def create_variant_input_json (wt_data : Payload)
    (variant_name variant_sequence wt_sequence : List Char)
    (ligand_smiles : Option (List Char)) (ligand_id : List Char)
    (model_seeds : Option (List Int)) : Except PyErr Payload :=
  if variant_sequence.length ≠ wt_sequence.length then .error .valueError
  else
    let result0 : Payload := { wt_data with name := variant_name }
    let result1 : Payload := match model_seeds with
      | some s => { result0 with modelSeeds := s }
      | none => result0
    let u := updateVariantProtein variant_name variant_sequence result1.sequences
    if !u.1 then .error .valueError
    else
      let result2 : Payload := { result1 with sequences := u.2 }
      let result3 : Payload := match ligand_smiles with
        | some sm =>
          if sm.isEmpty then result2
          else if hasLigandEntity result2.sequences then result2
          else { result2 with
              sequences := result2.sequences ++ [Entity.ligand ligand_id sm] }
        | none => result2
      .ok result3

/-- The call viewed together with the wild-type payload as it stands after the
call.  The source validates the lengths before its `copy.deepcopy(wt_data)`
and every later write targets the copy, never `wt_data`, so the post-call
wild-type payload is the input one. -/
def create_variant_input_json_run (wt_data : Payload)
    (variant_name variant_sequence wt_sequence : List Char)
    (ligand_smiles : Option (List Char)) (ligand_id : List Char)
    (model_seeds : Option (List Int)) : Except PyErr Payload × Payload :=
  (create_variant_input_json wt_data variant_name variant_sequence wt_sequence
      ligand_smiles ligand_id model_seeds,
   wt_data)

/-- C5: a transplant with mismatched lengths fails with a `ValueError` and the
wild-type payload observed after the call is deep-equal to the snapshot taken
before it. -/
theorem variant_length_guard_c5 (wt_data : Payload)
    (variant_name variant_sequence wt_sequence : List Char)
    (ligand_smiles : Option (List Char)) (ligand_id : List Char)
    (model_seeds : Option (List Int))
    (hlen : variant_sequence.length ≠ wt_sequence.length) :
    (create_variant_input_json_run wt_data variant_name variant_sequence
        wt_sequence ligand_smiles ligand_id model_seeds).1
      = .error .valueError
    ∧ (create_variant_input_json_run wt_data variant_name variant_sequence
        wt_sequence ligand_smiles ligand_id model_seeds).2
      = wt_data := by
  constructor
  · show create_variant_input_json wt_data variant_name variant_sequence
        wt_sequence ligand_smiles ligand_id model_seeds = .error .valueError
    unfold create_variant_input_json
    rw [if_pos hlen]
  · rfl

theorem variant_length_guard_c5_witness :
    (create_variant_input_json_run
        { name := "wt".data, modelSeeds := [1], sequences := [] }
        "v1".data "MRL".data "MKLL".data none "B".data none).1
      = .error .valueError
    ∧ (create_variant_input_json_run
        { name := "wt".data, modelSeeds := [1], sequences := [] }
        "v1".data "MRL".data "MKLL".data none "B".data none).2
      = { name := "wt".data, modelSeeds := [1], sequences := [] } :=
  variant_length_guard_c5 _ _ _ _ _ _ _ (by decide)

/-! ## `add_a3m_to_fold_input` (run_alphafold_with_a3m.py, lines 367-483)

File access is an oracle `readFile : path -> Option content` (resolution of
relative paths is absorbed into the oracle), and `search_templates_with_msa`
together with its external hmmsearch/structure-store collaborators is an
oracle `search : sequence -> msa -> Except Unit (List TemplateRec)`, an
`.error` representing an exception raised by the collaborator. -/

/-- The priority chain computing `unpaired_msa_content` for one protein:
1. an `msa_path` field (missing file: warning, content stays `None`, the path
   key is kept; found: content is loaded and cleaned and the key removed);
2. a chain A3M file `{dir}/{chain_id}.a3m` (existence-checked);
3. the single `unpaired_msa_path`, only if not yet applied (no existence
   check: a missing file raises).
Returns the content, the (possibly `msa_path`-stripped) protein, and the
updated `applied_single_unpaired` flag. -/
def computeUnpairedContent (readFile : List Char → Option (List Char))
    (unpaired_msa_dir unpaired_msa_path : Option (List Char))
    (p : Protein) (applied : Bool) :
    Except PyErr (Option (List Char) × Protein × Bool) :=
  match p.msa_path with
  | some mp =>
    match readFile mp with
    | some raw =>
      .ok (some (clean_a3m_content raw), { p with msa_path := none }, applied)
    | none => .ok (none, p, applied)
  | none =>
    match unpaired_msa_dir with
    | some d =>
      if !p.id.isEmpty then
        match readFile (d ++ '/' :: (p.id ++ ".a3m".data)) with
        | some raw => .ok (some (clean_a3m_content raw), p, applied)
        | none => .ok (none, p, applied)
      else
        match unpaired_msa_path with
        | some up =>
          if applied then .ok (none, p, applied)
          else
            match readFile up with
            | some raw => .ok (some (clean_a3m_content raw), p, true)
            | none => .error .fileNotFound
        | none => .ok (none, p, applied)
    | none =>
      match unpaired_msa_path with
      | some up =>
        if applied then .ok (none, p, applied)
        else
          match readFile up with
          | some raw => .ok (some (clean_a3m_content raw), p, true)
          | none => .error .fileNotFound
      | none => .ok (none, p, applied)

/-- The `if unpaired_msa_content:` block: attach the MSA (a Python-empty
string is falsy and attaches nothing), default `pairedMsa` to the empty
string, and handle `templates` when the key is absent — searching only when
template search is enabled and the whole configuration is present, catching
any collaborator exception and degrading to the empty list. -/
def attachMsaAndTemplates (run_template_search configOK : Bool)
    (search : List Char → List Char → Except Unit (List TemplateRec))
    (content : Option (List Char)) (p : Protein) : Protein :=
  match content with
  | none => p
  | some msa =>
    if msa.isEmpty then p
    else
      let p1 : Protein := { p with unpairedMsa := some msa }
      let p2 : Protein :=
        if p1.pairedMsa.isNone then { p1 with pairedMsa := some [] } else p1
      if p2.templates.isSome then p2
      else if run_template_search && configOK then
        match search p2.sequence msa with
        | .ok ts => { p2 with templates := some ts }
        | .error _ => { p2 with templates := some [] }
      else { p2 with templates := some [] }

/-- The per-protein body of the `add_a3m_to_fold_input` loop. -/
def processProtein (readFile : List Char → Option (List Char))
    (unpaired_msa_dir unpaired_msa_path : Option (List Char))
    (run_template_search configOK : Bool)
    (search : List Char → List Char → Except Unit (List TemplateRec))
    (p : Protein) (applied : Bool) : Except PyErr (Protein × Bool) :=
  match computeUnpairedContent readFile unpaired_msa_dir unpaired_msa_path p applied with
  | .error e => .error e
  | .ok (content, p', applied') =>
    .ok (attachMsaAndTemplates run_template_search configOK search content p', applied')

/-- The `for seq in fold_input_dict['sequences']` loop, threading the
`applied_single_unpaired` flag; non-protein entities pass through. -/
def a3mLoop (readFile : List Char → Option (List Char))
    (unpaired_msa_dir unpaired_msa_path : Option (List Char))
    (run_template_search configOK : Bool)
    (search : List Char → List Char → Except Unit (List TemplateRec)) :
    List Entity → Bool → Except PyErr (List Entity)
  | [], _ => .ok []
  | Entity.protein p :: rest, applied =>
    match processProtein readFile unpaired_msa_dir unpaired_msa_path
        run_template_search configOK search p applied with
    | .error e => .error e
    | .ok (p', applied') =>
      match a3mLoop readFile unpaired_msa_dir unpaired_msa_path
          run_template_search configOK search rest applied' with
      | .error e => .error e
      | .ok rest' => .ok (Entity.protein p' :: rest')
  | e :: rest, applied =>
    match a3mLoop readFile unpaired_msa_dir unpaired_msa_path
        run_template_search configOK search rest applied with
    | .error e2 => .error e2
    | .ok rest' => .ok (e :: rest')

/-- `add_a3m_to_fold_input` restricted to its payload transformation (the
json round-trip is identity on the modelled fields). -/
def add_a3m_to_fold_input (readFile : List Char → Option (List Char))
    (unpaired_msa_dir unpaired_msa_path : Option (List Char))
    (run_template_search configOK : Bool)
    (search : List Char → List Char → Except Unit (List TemplateRec))
    (payload : Payload) : Except PyErr Payload :=
  match a3mLoop readFile unpaired_msa_dir unpaired_msa_path
      run_template_search configOK search payload.sequences false with
  | .error e => .error e
  | .ok seqs => .ok { payload with sequences := seqs }

/-! ## Batch driver (run_alphafold_with_a3m_batch.py) -/

/-- `'unpairedMsa' in protein and protein['unpairedMsa']` (truthy: key present
with a nonempty value). -/
def proteinInlineMsa (p : Protein) : Bool :=
  match p.unpairedMsa with
  | some m => !m.isEmpty
  | none => false

/-- `'templates' in protein` (key presence only). -/
def proteinTemplatesKey (p : Protein) : Bool := p.templates.isSome

/-- `'msa_path' in protein`. -/
def proteinMsaPathKey (p : Protein) : Bool := p.msa_path.isSome

def entityInlineMsa : Entity → Bool
  | Entity.protein p => proteinInlineMsa p
  | _ => false

def entityTemplatesKey : Entity → Bool
  | Entity.protein p => proteinTemplatesKey p
  | _ => false

def entityMsaPathKey : Entity → Bool
  | Entity.protein p => proteinMsaPathKey p
  | _ => false

/-- The flag-accumulating loop of `check_input_has_inline_data`. -/
def checkLoop : List Entity → Bool → Bool → Bool → Bool × Bool × Bool
  | [], a, b, c => (a, b, c)
  | Entity.protein p :: rest, a, b, c =>
    checkLoop rest (a || proteinInlineMsa p) (b || proteinTemplatesKey p)
      (c || proteinMsaPathKey p)
  | _ :: rest, a, b, c => checkLoop rest a b c

/-- `check_input_has_inline_data`: returns
`(has_inline_msa, has_inline_templates, has_msa_path)`. -/
def check_input_has_inline_data (payload : Payload) : Bool × Bool × Bool :=
  checkLoop payload.sequences false false false

/-- The payload transformation of `process_single_input` (the branch on the
detected input format; parsing the fold input and running the prediction are
external collaborators). -/
def process_single_input_transform (readFile : List Char → Option (List Char))
    (run_template_search configOK : Bool)
    (search : List Char → List Char → Except Unit (List TemplateRec))
    (payload : Payload) : Except PyErr Payload :=
  let f := check_input_has_inline_data payload
  if f.1 && f.2.1 then .ok payload
  else if f.2.2 then
    add_a3m_to_fold_input readFile none none run_template_search configOK search payload
  else if f.1 && !f.2.1 then
    if run_template_search then
      add_a3m_to_fold_input readFile none none run_template_search configOK search payload
    else .ok payload
  else .ok payload

/-- A job directory: its path and the names of the files it contains. -/
structure JobDir where
  path : List Char
  files : List (List Char)
deriving DecidableEq

/-- `is_prediction_complete`: a file matching the glob `*_{marker}` exists
(glob's `*` matches any prefix but hidden files starting with a dot are not
matched), or a file named exactly `{marker}` exists. -/
def is_prediction_complete (d : JobDir) (marker : List Char) : Bool :=
  d.files.any (fun f => f.head? != some '.' && ('_' :: marker).isSuffixOf f)
    || d.files.contains marker

/-- The `skip_existing` filtering loop of `main`: returns the pending
directories in order and the skipped count. -/
def skipExistingFilter (marker : List Char) : List JobDir → List JobDir × Nat
  | [] => ([], 0)
  | d :: rest =>
    let r := skipExistingFilter marker rest
    if is_prediction_complete d marker then (r.1, r.2 + 1) else (d :: r.1, r.2)

/-- Outcome of processing one job directory: `process_single_input` returned
True, returned False (no results), or raised. -/
inductive Outcome where
  | success
  | noResults
  | exception
deriving DecidableEq

/-- The per-directory processing loop of `main` with its try/except:
returns `(successful, failed, failed_dirs)`. -/
def runBatch (outcome : JobDir → Outcome) : List JobDir → Nat × Nat × List JobDir
  | [] => (0, 0, [])
  | d :: rest =>
    let r := runBatch outcome rest
    match outcome d with
    | Outcome.success => (r.1 + 1, r.2.1, r.2.2)
    | Outcome.noResults => (r.1, r.2.1 + 1, d :: r.2.2)
    | Outcome.exception => (r.1, r.2.1 + 1, d :: r.2.2)

/-! ## C6: NeedsTemplatesOnly payloads -/

def protein6 : Protein :=
  { id := "A".data, sequence := "MKLL".data,
    unpairedMsa := some ">q\nMKLL".data, pairedMsa := some [],
    templates := none, msa_path := none }

def payload6 : Payload :=
  { name := "job".data, modelSeeds := [1], sequences := [Entity.protein protein6] }

def templateRec6 : TemplateRec :=
  { mmcif := "CIF".data, queryIndices := [0], templateIndices := [0] }

/-- C6: the code does not do what the claim (and the script's own log message
"Input has inline MSA but no templates - searching templates") says.  For a
payload in the NeedsTemplatesOnly state (inline nonempty `unpairedMsa`,
no `templates` key, no `msa_path`), with template search enabled, a complete
configuration, and a search collaborator that would succeed with a nonempty
hit list, `process_single_input` calls `add_a3m_to_fold_input` with no
`msa_path`/directory/file MSA source, so `unpaired_msa_content` stays `None`,
no search happens, and the payload is returned unchanged with `templates`
still absent. -/
theorem inline_msa_template_search_noop_bug :
    check_input_has_inline_data payload6 = (true, false, false)
    ∧ process_single_input_transform (fun _ => none) true true
        (fun _ _ => Except.ok [templateRec6]) payload6 = Except.ok payload6
    ∧ protein6.templates = none := by
  refine ⟨by decide, ?_, by decide⟩
  rfl

/-! ## C7: template-search failure is caught -/

/-- C7: whenever the template search is actually invoked (an unpaired MSA was
loaded and is nonempty, the protein has no `templates` key, template search is
enabled and fully configured) and the external search collaborator raises, the
exception is caught and the protein gets an empty template list; the per-
protein processing still returns normally. -/
theorem template_search_failure_caught_c7
    (readFile : List Char → Option (List Char))
    (unpaired_msa_dir unpaired_msa_path : Option (List Char))
    (rts cfgOK : Bool)
    (search : List Char → List Char → Except Unit (List TemplateRec))
    (p : Protein) (applied : Bool)
    (msa : List Char) (p' : Protein) (applied' : Bool) (e : Unit)
    (hc : computeUnpairedContent readFile unpaired_msa_dir unpaired_msa_path p applied
        = .ok (some msa, p', applied'))
    (hne : msa.isEmpty = false)
    (htpl : p'.templates = none)
    (hrts : rts = true) (hcfg : cfgOK = true)
    (herr : search p'.sequence msa = .error e) :
    ∃ q : Protein,
      processProtein readFile unpaired_msa_dir unpaired_msa_path rts cfgOK search p applied
        = .ok (q, applied')
      ∧ q.templates = some [] := by
  subst hrts
  subst hcfg
  unfold processProtein
  rw [hc]
  unfold attachMsaAndTemplates
  cases hmp : p'.pairedMsa with
  | none =>
    refine ⟨{ p' with unpairedMsa := some msa, pairedMsa := some ([] : List Char), templates := some ([] : List TemplateRec) }, ?_, rfl⟩
    simp [hne, hmp, htpl, herr]
  | some pm =>
    refine ⟨{ p' with unpairedMsa := some msa, templates := some ([] : List TemplateRec) }, ?_, rfl⟩
    simp [hne, hmp, htpl, herr]

def protein7 : Protein :=
  { id := "A".data, sequence := "ACDE".data, unpairedMsa := none,
    pairedMsa := none, templates := none, msa_path := some "m.a3m".data }

theorem template_search_failure_caught_c7_witness :
    ∃ q : Protein,
      processProtein (fun _ => some ">q\nACDE".data) none none true true
          (fun _ _ => Except.error ()) protein7 false
        = .ok (q, false)
      ∧ q.templates = some [] :=
  template_search_failure_caught_c7 (fun _ => some ">q\nACDE".data) none none
    true true (fun _ _ => Except.error ()) protein7 false
    (clean_a3m_content ">q\nACDE".data) { protein7 with msa_path := none } false ()
    rfl (by decide) rfl rfl rfl rfl

/-! ## C8 and C9: skip-existing and batch isolation -/

theorem skipExistingFilter_eq (marker : List Char) (dirs : List JobDir) :
    skipExistingFilter marker dirs
      = (dirs.filter (fun d => !is_prediction_complete d marker),
         dirs.countP (fun d => is_prediction_complete d marker)) := by
  induction dirs with
  | nil => rfl
  | cons d rest ih =>
    simp only [skipExistingFilter, ih, List.filter_cons, List.countP_cons]
    by_cases hc : is_prediction_complete d marker = true
    · simp [hc]
    · simp only [Bool.not_eq_true] at hc
      simp [hc]

theorem runBatch_total (outcome : JobDir → Outcome) (dirs : List JobDir) :
    (runBatch outcome dirs).1 + (runBatch outcome dirs).2.1 = dirs.length := by
  induction dirs with
  | nil => rfl
  | cons d rest ih =>
    simp only [runBatch]
    cases outcome d with
    | success => simp only [List.length_cons]; omega
    | noResults => simp only [List.length_cons]; omega
    | exception => simp only [List.length_cons]; omega

/-- C8: with skip-existing enabled the pending list is exactly the directories
without a completion-marker file (a file matching `*_{marker}` or named
`{marker}`), in their original order; skipped directories are counted
separately; a directory with a marker is never in the pending list, one
without always is; and the final success/failure counts range only over the
pending list, so skipped jobs are never reported as successes or failures. -/
theorem skip_existing_sound_complete_c8 (dirs : List JobDir) (marker : List Char)
    (outcome : JobDir → Outcome) :
    (skipExistingFilter marker dirs).1
        = dirs.filter (fun d => !is_prediction_complete d marker)
    ∧ (skipExistingFilter marker dirs).2
        = dirs.countP (fun d => is_prediction_complete d marker)
    ∧ (∀ d ∈ dirs, is_prediction_complete d marker = true →
        d ∉ (skipExistingFilter marker dirs).1)
    ∧ (∀ d ∈ dirs, is_prediction_complete d marker = false →
        d ∈ (skipExistingFilter marker dirs).1)
    ∧ (runBatch outcome (skipExistingFilter marker dirs).1).1
        + (runBatch outcome (skipExistingFilter marker dirs).1).2.1
        = (skipExistingFilter marker dirs).1.length := by
  refine ⟨by rw [skipExistingFilter_eq], by rw [skipExistingFilter_eq], ?_, ?_, ?_⟩
  · intro d _ hc hmem
    rw [skipExistingFilter_eq] at hmem
    have := List.of_mem_filter hmem
    rw [hc] at this
    simp at this
  · intro d hd hc
    rw [skipExistingFilter_eq]
    exact List.mem_filter.mpr ⟨hd, by rw [hc]; rfl⟩
  · exact runBatch_total outcome _

theorem skip_existing_sound_complete_c8_witness :
    (⟨"done".data, ["seed1_model_output.cif".data]⟩ : JobDir)
        ∉ (skipExistingFilter "model_output.cif".data
            [⟨"done".data, ["seed1_model_output.cif".data]⟩,
             ⟨"todo".data, ["input.json".data]⟩]).1
    ∧ (⟨"todo".data, ["input.json".data]⟩ : JobDir)
        ∈ (skipExistingFilter "model_output.cif".data
            [⟨"done".data, ["seed1_model_output.cif".data]⟩,
             ⟨"todo".data, ["input.json".data]⟩]).1 :=
  ⟨(skip_existing_sound_complete_c8
      [⟨"done".data, ["seed1_model_output.cif".data]⟩,
       ⟨"todo".data, ["input.json".data]⟩]
      "model_output.cif".data (fun _ => Outcome.success)).2.2.1
      ⟨"done".data, ["seed1_model_output.cif".data]⟩ (by decide) (by decide),
   (skip_existing_sound_complete_c8
      [⟨"done".data, ["seed1_model_output.cif".data]⟩,
       ⟨"todo".data, ["input.json".data]⟩]
      "model_output.cif".data (fun _ => Outcome.success)).2.2.2.1
      ⟨"todo".data, ["input.json".data]⟩ (by decide) (by decide)⟩

theorem runBatch_all_success (outcome : JobDir → Outcome) (dirs : List JobDir)
    (h : ∀ x ∈ dirs, outcome x = Outcome.success) :
    runBatch outcome dirs = (dirs.length, 0, []) := by
  induction dirs with
  | nil => rfl
  | cons d rest ih =>
    have hd : outcome d = Outcome.success := h d (List.mem_cons_self _ _)
    simp [runBatch, ih (fun x hx => h x (List.mem_cons_of_mem _ hx)), hd]

/-- C9: an exception for job k is caught at the batch level and recorded
against that directory; the other n-1 jobs are still processed and counted as
successes, and the report has exactly one failure, wherever k sits in the
list.  Moreover every job in a batch is accounted for:
successful + failed = total. -/
theorem batch_failure_isolation_c9 (outcome : JobDir → Outcome)
    (pre post : List JobDir) (d : JobDir)
    (hpre : ∀ x ∈ pre, outcome x = Outcome.success)
    (hpost : ∀ x ∈ post, outcome x = Outcome.success)
    (hd : outcome d = Outcome.exception) :
    runBatch outcome (pre ++ d :: post) = (pre.length + post.length, 1, [d])
    ∧ ∀ dirs : List JobDir,
        (runBatch outcome dirs).1 + (runBatch outcome dirs).2.1 = dirs.length := by
  refine ⟨?_, runBatch_total outcome⟩
  induction pre with
  | nil =>
    rw [List.nil_append, runBatch, runBatch_all_success outcome post hpost, hd]
    simp
  | cons x pre' ih =>
    have hx : outcome x = Outcome.success := hpre x (List.mem_cons_self _ _)
    have hih := ih (fun y hy => hpre y (List.mem_cons_of_mem _ hy))
    rw [List.cons_append, runBatch, hih, hx]
    simp only [List.length_cons]
    have harith : pre'.length + post.length + 1 = pre'.length + 1 + post.length := by
      omega
    rw [← harith]

theorem batch_failure_isolation_c9_witness :
    runBatch
      (fun j => if j.path = "k".data then Outcome.exception else Outcome.success)
      [⟨"a".data, []⟩, ⟨"k".data, []⟩, ⟨"b".data, []⟩]
      = (2, 1, [⟨"k".data, []⟩]) := by
  have h := (batch_failure_isolation_c9
    (fun j => if j.path = "k".data then Outcome.exception else Outcome.success)
    [⟨"a".data, []⟩] [⟨"b".data, []⟩] ⟨"k".data, []⟩
    (fun x hx => by
      have hxa : x = (⟨"a".data, []⟩ : JobDir) := by simpa using hx
      rw [hxa]; decide)
    (fun x hx => by
      have hxb : x = (⟨"b".data, []⟩ : JobDir) := by simpa using hx
      rw [hxb]; decide)
    (by decide)).1
  simpa using h

/-! ## C10: mode flags are payload-wide disjunctions -/

theorem checkLoop_eq (es : List Entity) :
    ∀ a b c : Bool, checkLoop es a b c
      = (a || es.any entityInlineMsa, b || es.any entityTemplatesKey,
         c || es.any entityMsaPathKey) := by
  induction es with
  | nil => intro a b c; simp [checkLoop]
  | cons e rest ih =>
    intro a b c
    cases e with
    | protein p =>
      simp only [checkLoop, ih, List.any_cons, entityInlineMsa,
        entityTemplatesKey, entityMsaPathKey]
      simp [Bool.or_assoc]
    | ligand i s =>
      simp only [checkLoop, ih, List.any_cons, entityInlineMsa,
        entityTemplatesKey, entityMsaPathKey]
      simp
    | other t =>
      simp only [checkLoop, ih, List.any_cons, entityInlineMsa,
        entityTemplatesKey, entityMsaPathKey]
      simp

/-- C10: `check_input_has_inline_data` computes its three flags as
disjunctions over all protein entities of the payload (nonempty `unpairedMsa`
anywhere, `templates` key anywhere, `msa_path` anywhere), and any payload
whose first two flags are both true — even via two different entities — is
classified InlineComplete and passed through by `process_single_input`
unchanged, with no MSA loading and no template search. -/
theorem inline_flags_disjunction_c10 :
    (∀ payload : Payload, check_input_has_inline_data payload
      = (payload.sequences.any entityInlineMsa,
         payload.sequences.any entityTemplatesKey,
         payload.sequences.any entityMsaPathKey))
    ∧ (∀ (payload : Payload) (readFile : List Char → Option (List Char))
        (rts cfgOK : Bool)
        (search : List Char → List Char → Except Unit (List TemplateRec)),
        (check_input_has_inline_data payload).1 = true →
        (check_input_has_inline_data payload).2.1 = true →
        process_single_input_transform readFile rts cfgOK search payload
          = .ok payload) := by
  constructor
  · intro payload
    unfold check_input_has_inline_data
    rw [checkLoop_eq]
    simp
  · intro payload readFile rts cfgOK search h1 h2
    unfold process_single_input_transform
    dsimp only
    rw [h1, h2]
    simp

def proteinA10 : Protein :=
  { id := "A".data, sequence := "MK".data, unpairedMsa := some ">q\nMK".data,
    pairedMsa := none, templates := none, msa_path := none }

def proteinB10 : Protein :=
  { id := "B".data, sequence := "LL".data, unpairedMsa := none,
    pairedMsa := none, templates := some [], msa_path := none }

def payload10 : Payload :=
  { name := "j".data, modelSeeds := [1],
    sequences := [Entity.protein proteinA10, Entity.protein proteinB10] }

theorem inline_flags_disjunction_c10_witness :
    process_single_input_transform (fun _ => none) true true
        (fun _ _ => Except.ok []) payload10 = .ok payload10 :=
  inline_flags_disjunction_c10.2 payload10 (fun _ => none) true true
    (fun _ _ => Except.ok []) (by decide) (by decide)
